import Mathlib

/-!
Verification of the `worker` process supervisor (src/main.rs) against its
specification.  The Rust source is shallowly embedded: the state directory
becomes a list of entries (filename plus optionally-deserializable content),
the log directory becomes an association list from path to content, and the
platform primitives from the repository's `libc` module (`daemon`,
`is_process_running`, `terminate`) — whose source is not part of the core —
are passed in as oracle parameters, as the spec describes them (§4.2, §4.3).
-/

namespace Worker

/-- The `Project` struct of `main.rs`: name, command, working directory,
optional display name, optional environment overrides.  The Rust `HashMap`
of environment overrides is embedded as an association list. -/
structure Project where
  name : String
  command : String
  cwd : String
  display : Option String
  envs : Option (List (String × String))
deriving Repr, DecidableEq

/-- One file of the state directory: its filename and its content.
`content = none` embeds a file whose bytes do not deserialize to a
`Project` (`serde_json::from_reader` fails). -/
structure Entry where
  filename : String
  content : Option Project
deriving Repr, DecidableEq

/-- The error taxonomy of the spec (§7), as surfaced by the embedded
operations.  The Rust code carries `anyhow` errors; the spec groups them
into these kinds. -/
inductive Err where
  | corruptState : String → Err
  | ioError : String → Err
deriving Repr, DecidableEq

/-- `HashSet::insert` on a set represented as a duplicate-free list:
inserting an element already present leaves the set unchanged. -/
def insertSet (s : List String) (x : String) : List String :=
  if x ∈ s then s else s ++ [x]

/-- `project.display.unwrap_or(project.name)`. -/
def displayName (p : Project) : String :=
  p.display.getD p.name

/-- A directory of files as an association list from path to content. -/
def Fs := List (String × String)

/-- Read a file: `none` when the path is absent. -/
def getFile (fs : List (String × String)) (path : String) : Option String :=
  (fs.find? (fun e => e.1 = path)).map (fun e => e.2)

/-- `File::create`: creates the file, truncating any existing content. -/
def setFile (fs : List (String × String)) (path v : String) : List (String × String) :=
  (fs.filter (fun e => decide (e.1 ≠ path))) ++ [(path, v)]

/-- `std::fs::remove_file`: removes the file; removing an absent file
leaves the directory unchanged (the callers that use this on log files
ignore the result). -/
def removeFile (fs : List (String × String)) (path : String) : List (String × String) :=
  fs.filter (fun e => decide (e.1 ≠ path))

/-- `str::split_once` on a list of characters: splits at the first
occurrence of `c`, returning the parts before and after it. -/
def splitOnceAux (c : Char) : List Char → Option (List Char × List Char)
  | [] => none
  | x :: xs =>
    if x = c then some ([], xs)
    else (splitOnceAux c xs).map (fun p => (x :: p.1, p.2))

/-- `str::split_once` on strings. -/
def splitOnce (s : String) (c : Char) : Option (String × String) :=
  (splitOnceAux c s.data).map (fun p => (String.mk p.1, String.mk p.2))

/-- Value of a list of decimal digit characters, most significant first. -/
def digitsVal (cs : List Char) : Nat :=
  cs.foldl (fun a c => 10 * a + (c.toNat - 48)) 0

/-- Parse a non-empty all-decimal-digit character list, as the digit part
of Rust's `i32::from_str` does. -/
def parseNatDigits (cs : List Char) : Option Nat :=
  if cs ≠ [] ∧ cs.all Char.isDigit then some (digitsVal cs) else none

/-- Rust's `str::parse::<i32>`: an optional sign, then decimal digits,
rejecting values outside the `i32` range. -/
def parseI32 (s : String) : Option Int :=
  match s.data with
  | [] => none
  | c :: cs =>
    if c = '-' then
      (parseNatDigits cs).bind (fun n => if n ≤ 2 ^ 31 then some (-(n : Int)) else none)
    else if c = '+' then
      (parseNatDigits cs).bind (fun n => if n < 2 ^ 31 then some (n : Int) else none)
    else
      (parseNatDigits (c :: cs)).bind (fun n => if n < 2 ^ 31 then some (n : Int) else none)

/-- `parse_state_filename` (main.rs:67-78): split the filename into
`<name>-<pid>` on the first `-` and parse `<pid>` as an `i32`; both
failures are `CorruptState` errors. -/
def parse_state_filename (filename : String) : Except Err (String × Int) :=
  match splitOnce filename '-' with
  | none => .error (.corruptState "File does not contain -")
  | some (name, pidStr) =>
    match parseI32 pidStr with
    | none => .error (.corruptState "Could not parse pid to i32")
    | some pid => .ok (name, pid)

/-- The state-record filename written by `start` (main.rs:164):
`format!("\x7b\x7d-\x7b\x7d", project.name, pid)`. -/
def stateFilename (name : String) (pid : Int) : String :=
  name ++ "-" ++ toString pid

/-- The single-quote character. -/
def squote : Char := Char.ofNat 39

/-- The double-quote character. -/
def dquote : Char := Char.ofNat 34

/-- The backtick character. -/
def btick : Char := Char.ofNat 96

/-- The whitespace characters of the `shlex` lexer: space, tab, newline. -/
def isShWs (c : Char) : Bool :=
  c = ' ' || c = '\t' || c = '\n'

/-- Lexer mode of `shlex::split`, presented as a character-at-a-time state
machine equivalent to the crate's iterator: between words (skipping
whitespace), inside a `#` comment, inside a word, after a backslash inside
a word, inside single quotes, inside double quotes, and after a backslash
inside double quotes. -/
inductive LexMode where
  | between
  | comment
  | inWord
  | wordEsc
  | inSingle
  | inDouble
  | doubleEsc
deriving Repr, DecidableEq

/-- Lexer state: current mode, characters of the word being built, and the
words already produced. -/
structure LexState where
  mode : LexMode
  acc : List Char
  words : List (List Char)
deriving Repr, DecidableEq

/-- One step of the `shlex` lexer on one character. -/
def lexStep (st : LexState) (c : Char) : LexState :=
  match st.mode with
  | .between =>
    if isShWs c then st
    else if c = '#' then { st with mode := .comment }
    else if c = squote then { st with mode := .inSingle, acc := [] }
    else if c = dquote then { st with mode := .inDouble, acc := [] }
    else if c = '\\' then { st with mode := .wordEsc, acc := [] }
    else { st with mode := .inWord, acc := [c] }
  | .comment =>
    if c = '\n' then { st with mode := .between } else st
  | .inWord =>
    if isShWs c then { st with mode := .between, acc := [], words := st.words ++ [st.acc] }
    else if c = squote then { st with mode := .inSingle }
    else if c = dquote then { st with mode := .inDouble }
    else if c = '\\' then { st with mode := .wordEsc }
    else { st with acc := st.acc ++ [c] }
  | .wordEsc =>
    if c = '\n' then { st with mode := .inWord }
    else { st with mode := .inWord, acc := st.acc ++ [c] }
  | .inSingle =>
    if c = squote then { st with mode := .inWord }
    else { st with acc := st.acc ++ [c] }
  | .inDouble =>
    if c = dquote then { st with mode := .inWord }
    else if c = '\\' then { st with mode := .doubleEsc }
    else { st with acc := st.acc ++ [c] }
  | .doubleEsc =>
    if c = '$' || c = btick || c = dquote || c = '\\' then
      { st with mode := .inDouble, acc := st.acc ++ [c] }
    else if c = '\n' then { st with mode := .inDouble }
    else { st with mode := .inDouble, acc := st.acc ++ ['\\', c] }

/-- End of input: a dangling quote or escape is a lexing error (`None`
from `shlex::split`); a pending word is emitted. -/
def lexFinish (st : LexState) : Option (List (List Char)) :=
  match st.mode with
  | .between => some st.words
  | .comment => some st.words
  | .inWord => some (st.words ++ [st.acc])
  | _ => none

/-- `shlex::split`: POSIX-style shell word-splitting of the command
string; `none` embeds the crate's `None` (tokenization failure). -/
def shlexSplit (s : String) : Option (List String) :=
  (lexFinish (s.data.foldl lexStep ⟨.between, [], []⟩)).map
    (fun ws => ws.map (fun w => String.mk w))

/-! ### The `start` operation (main.rs:159-199)

`daemon()` (from the repository's `libc` module, outside the core source)
forks: the original process receives `Fork::Parent(pid)` with the child's
pid and writes the state record; the detached child receives `Fork::Child`,
creates/truncates the log file, tokenizes the command and `exec`s it.
Fork is embedded by drawing child pids from a supply list, and `exec`
success by an oracle predicate on the argument vector. -/

/-- What becomes of the detached child of one launch: the `exec` replaced
the process; the `exec` returned with an error and control fell through;
tokenization failed and the `?` on `shlex::split` returned an error from
`start`; or the token list was empty and `&parts[0]` panicked. -/
inductive ChildFate where
  | execed : String → List String → ChildFate
  | execFailed : ChildFate
  | invalidCommand : ChildFate
  | panicked : ChildFate
deriving Repr, DecidableEq

/-- The `Fork::Child` branch after the log file is set up (main.rs:177-187):
tokenize the command; an untokenizable command is an error surfaced by `?`;
an empty token list makes `&parts[0]` panic; otherwise `exec`. -/
def childFate (execOk : String → List String → Bool) (p : Project) : ChildFate :=
  match shlexSplit p.command with
  | none => .invalidCommand
  | some [] => .panicked
  | some (prog :: args) =>
    if execOk prog args then .execed prog args else .execFailed

/-- The log path used by both `start` (main.rs:171) and `stop`
(main.rs:139): `LOG_DIR.join(name)` — derived from the job name only. -/
def logPath (logDir name : String) : String :=
  logDir ++ "/" ++ name

/-- Result of running the `Fork::Child` branch: the child's fate together
with the log directory after `File::create(LOG_DIR.join(&project.name))`
truncated the job's log file. -/
structure ChildResult where
  fate : ChildFate
  logsAfter : List (String × String)
deriving Repr, DecidableEq

/-- The whole `Fork::Child` branch (main.rs:170-187): create/truncate the
log file named after the job, then tokenize and `exec`. -/
def childRun (logDir : String) (execOk : String → List String → Bool)
    (logs : List (String × String)) (p : Project) : ChildResult :=
  { fate := childFate execOk p, logsAfter := setFile logs (logPath logDir p.name) "" }

/-- Observable outcome of one process's run of the `start` loop: the state
directory, the log directory, and the launches it performed (child pid,
project, child's fate). -/
structure StartResult where
  store : List Entry
  logs : List (String × String)
  children : List (Int × Project × ChildFate)
deriving Repr, DecidableEq

/-- One process's execution of the `start` loop (main.rs:161-196),
parameterized by the pid of the original (`master_pid`) and of the
executing process (`mePid`).  Each iteration forks a child (whose pid is
drawn from `pids` and whose run is `childRun`), writes the state record in
the parent, and then — the guard of main.rs:192-195 — breaks unless the
executing process is the original one. -/
def startLoopProc (logDir : String) (masterPid mePid : Int)
    (execOk : String → List String → Bool) :
    List Int → List Project → List Entry → List (String × String) → StartResult
  | _, [], store, logs => ⟨store, logs, []⟩
  | [], _, store, logs => ⟨store, logs, []⟩
  | pid :: pids, p :: ps, store, logs =>
    let cr := childRun logDir execOk logs p
    let store1 := store ++ [⟨stateFilename p.name pid, some p⟩]
    if mePid = masterPid then
      let rest := startLoopProc logDir masterPid mePid execOk pids ps store1 cr.logsAfter
      ⟨rest.store, rest.logs, (pid, p, cr.fate) :: rest.children⟩
    else
      ⟨store1, cr.logsAfter, [(pid, p, cr.fate)]⟩

/-- `start` as run by the original invoking process. -/
def startRun (logDir : String) (masterPid : Int)
    (execOk : String → List String → Bool) (pids : List Int)
    (projects : List Project) (store : List Entry)
    (logs : List (String × String)) : StartResult :=
  startLoopProc logDir masterPid masterPid execOk pids projects store logs

/-- The detached child's own execution from its fork point onward: it runs
the `Fork::Child` branch; only if the `exec` returns (failure) does control
reach the loop guard (main.rs:192-195), which breaks out of the loop when
the current pid differs from `master_pid`; otherwise the child would
continue the loop over the remaining projects. -/
def childExec (logDir : String) (masterPid childPid : Int)
    (execOk : String → List String → Bool) (pids : List Int) (p : Project)
    (remaining : List Project) (store : List Entry)
    (logs : List (String × String)) : StartResult :=
  let cr := childRun logDir execOk logs p
  match cr.fate with
  | .execFailed =>
    if childPid = masterPid then
      startLoopProc logDir masterPid childPid execOk pids remaining store cr.logsAfter
    else
      ⟨store, cr.logsAfter, []⟩
  | _ => ⟨store, cr.logsAfter, []⟩

/-! ### The `stop` operation (main.rs:107-157) -/

/-- Result of `terminate(pid)` (spec §4.2).  Modelled from the spec: the
`terminate` function lives in the repository's `libc` module, whose source
is not part of the core; the spec says it sends a termination request and
can report `NoSuchProcess` or `PermissionDenied`. -/
inductive TermResult where
  | ok
  | noSuchProcess
  | permissionDenied
deriving Repr, DecidableEq

/-- The first phase of `stop` (main.rs:109-117): for every state record
whose parsed name matches a requested project, call `terminate` and
discard its result (`let _ = terminate(pid)`); a filename that does not
parse surfaces through `?`. -/
def terminatePhase (term : Int → TermResult) (projects : List Project) :
    List Entry → Except Err Unit
  | [] => .ok ()
  | e :: rest =>
    match parse_state_filename e.filename with
    | .error err => .error err
    | .ok (name, pid) =>
      if projects.any (fun p => p.name = name) then
        let _ := term pid
        terminatePhase term projects rest
      else
        terminatePhase term projects rest

/-- Result of one pass of the `stop` polling loop body: the surviving
records, the log directory, the set of display names still running, and
the `finished` flag. -/
structure IterResult where
  store : List Entry
  logs : List (String × String)
  set : List String
  finished : Bool
deriving Repr, DecidableEq

/-- One pass of the `stop` polling loop body (main.rs:127-143): for every
record whose parsed name matches a requested project, a live pid keeps the
record, records the display name and clears `finished`; a dead pid removes
the record and the job's log file. -/
def stopIter (logDir : String) (projects : List Project) (aliveNow : Int → Bool) :
    List Entry → List (String × String) → Except Err IterResult
  | [], logs => .ok ⟨[], logs, [], true⟩
  | e :: rest, logs =>
    match parse_state_filename e.filename with
    | .error err => .error err
    | .ok (name, pid) =>
      match projects.find? (fun p => p.name = name) with
      | none =>
        (stopIter logDir projects aliveNow rest logs).map
          (fun r => { r with store := e :: r.store })
      | some p =>
        if aliveNow pid then
          (stopIter logDir projects aliveNow rest logs).map
            (fun r =>
              { r with
                store := e :: r.store
                set := insertSet r.set (displayName p)
                finished := false })
        else
          stopIter logDir projects aliveNow rest (removeFile logs (logPath logDir p.name))

/-- The bounded polling loop of `stop` (main.rs:124-148), with the
5-second wall-clock window abstracted into a number of passes (`fuel`) and
liveness given per pass (`alive i pid`).  Returns the final store, the
final log directory, and `some set` exactly when the timeout elapsed with
instances still alive (in which case `stop` reports each name in `set` as
not stopped, main.rs:150-154). -/
def stopLoop (logDir : String) (projects : List Project) (alive : Nat → Int → Bool) :
    Nat → Nat → List Entry → List (String × String) →
    Except Err (List Entry × List (String × String) × Option (List String))
  | _, 0, store, logs => .ok (store, logs, none)
  | i, fuel + 1, store, logs =>
    match stopIter logDir projects (alive i) store logs with
    | .error err => .error err
    | .ok r =>
      if r.finished then .ok (r.store, r.logs, none)
      else
        match fuel with
        | 0 => .ok (r.store, r.logs, some r.set)
        | f + 1 => stopLoop logDir projects alive (i + 1) (f + 1) r.store r.logs

/-- `stop` (main.rs:107-157): terminate every matching recorded pid, then
poll until every matching instance is gone or the window closes. -/
def stop (logDir : String) (term : Int → TermResult) (projects : List Project)
    (alive : Nat → Int → Bool) (fuel : Nat) (store : List Entry)
    (logs : List (String × String)) :
    Except Err (List Entry × List (String × String) × Option (List String)) :=
  match terminatePhase term projects store with
  | .error err => .error err
  | .ok _ => stopLoop logDir projects alive 0 fuel store logs

/-! ### The `status` operation (main.rs:80-105) -/

/-- The loop of `status` (main.rs:83-98): for every record, deserialize its
content (failure surfaces through `?`), parse its filename (failure
surfaces through `?`), and probe the pid: alive inserts the display name
into the result set, dead removes the record file. -/
def statusLoop (alive : Int → Bool) :
    List Entry → List String → Except Err (List Entry × List String)
  | [], set => .ok ([], set)
  | e :: rest, set =>
    match e.content with
    | none => .error (.corruptState "content does not deserialize")
    | some project =>
      match parse_state_filename e.filename with
      | .error err => .error err
      | .ok (_, pid) =>
        if alive pid then
          (statusLoop alive rest (insertSet set (displayName project))).map
            (fun r => (e :: r.1, r.2))
        else
          statusLoop alive rest set

/-- `status` (main.rs:80-105): returns the surviving store and the
deduplicated set of display names of running instances. -/
def status (alive : Int → Bool) (store : List Entry) :
    Except Err (List Entry × List String) :=
  statusLoop alive store []

/-! ## Lemmas about filename parsing (C1) -/

theorem splitOnceAux_append (c : Char) (l₁ l₂ : List Char) (h : c ∉ l₁) :
    splitOnceAux c (l₁ ++ c :: l₂) = some (l₁, l₂) := by
  induction l₁ with
  | nil => simp [splitOnceAux]
  | cons x xs ih =>
    have hx : x ≠ c := fun hxc => h (hxc ▸ List.mem_cons_self x xs)
    have hxs : c ∉ xs := fun hm => h (List.mem_cons_of_mem x hm)
    simp only [List.cons_append, splitOnceAux, if_neg hx, List.append_eq, ih hxs,
      Option.map_some']

theorem digitChar_isDigit (r : Nat) (h : r < 10) : (Nat.digitChar r).isDigit = true := by
  interval_cases r <;> rfl

theorem digitChar_toNat (r : Nat) (h : r < 10) : (Nat.digitChar r).toNat = r + 48 := by
  interval_cases r <;> rfl

theorem toDigitsCore_append (fuel : Nat) : ∀ (n : Nat) (ds : List Char), n < fuel →
    Nat.toDigitsCore 10 fuel n ds = Nat.toDigitsCore 10 fuel n [] ++ ds := by
  induction fuel with
  | zero => intro n ds h; omega
  | succ f ih =>
    intro n ds h
    simp only [Nat.toDigitsCore]
    by_cases h10 : n / 10 = 0
    · simp [h10]
    · have hpos : 0 < n := by omega
      have hdiv : n / 10 < f := by omega
      rw [if_neg h10, if_neg h10, ih _ _ hdiv, ih _ [Nat.digitChar (n % 10)] hdiv,
        List.append_assoc]
      rfl

theorem digitsVal_append_one (l : List Char) (d : Char) :
    digitsVal (l ++ [d]) = 10 * digitsVal l + (d.toNat - 48) := by
  simp [digitsVal, List.foldl_append]

theorem digitsVal_toDigitsCore (fuel : Nat) : ∀ n : Nat, n < fuel →
    digitsVal (Nat.toDigitsCore 10 fuel n []) = n := by
  induction fuel with
  | zero => intro n h; omega
  | succ f ih =>
    intro n h
    simp only [Nat.toDigitsCore]
    by_cases h10 : n / 10 = 0
    · rw [if_pos h10]
      have hm : n % 10 < 10 := Nat.mod_lt _ (by norm_num)
      simp only [digitsVal, List.foldl, digitChar_toNat _ hm]
      omega
    · have hdiv : n / 10 < f := by omega
      have hm : n % 10 < 10 := Nat.mod_lt _ (by norm_num)
      rw [if_neg h10, toDigitsCore_append f _ _ hdiv, digitsVal_append_one, ih _ hdiv,
        digitChar_toNat _ hm]
      omega

theorem toDigits_isDigit (fuel : Nat) : ∀ n : Nat, n < fuel →
    ∀ c ∈ Nat.toDigitsCore 10 fuel n [], c.isDigit := by
  induction fuel with
  | zero => intro n h; omega
  | succ f ih =>
    intro n h c hc
    simp only [Nat.toDigitsCore] at hc
    by_cases h10 : n / 10 = 0
    · rw [if_pos h10] at hc
      have hm : n % 10 < 10 := Nat.mod_lt _ (by norm_num)
      rcases List.mem_singleton.mp hc with rfl
      exact digitChar_isDigit _ hm
    · have hdiv : n / 10 < f := by omega
      rw [if_neg h10, toDigitsCore_append f _ _ hdiv] at hc
      rcases List.mem_append.mp hc with hc | hc
      · exact ih _ hdiv c hc
      · rcases List.mem_singleton.mp hc with rfl
        exact digitChar_isDigit _ (Nat.mod_lt _ (by norm_num))

theorem toDigits_ne_nil (n : Nat) : Nat.toDigits 10 n ≠ [] := by
  unfold Nat.toDigits
  simp only [Nat.toDigitsCore]
  by_cases h10 : n / 10 = 0
  · simp [h10]
  · have hpos : 0 < n := by omega
    have hdiv : n / 10 < n := by omega
    rw [if_neg h10, toDigitsCore_append n _ _ hdiv]
    simp

theorem parseNatDigits_repr (n : Nat) : parseNatDigits (Nat.repr n).data = some n := by
  have hdata : (Nat.repr n).data = Nat.toDigits 10 n := rfl
  rw [hdata]
  unfold parseNatDigits
  rw [if_pos]
  · exact congrArg some (digitsVal_toDigitsCore (n + 1) n (Nat.lt_succ_self n))
  · exact ⟨toDigits_ne_nil n, List.all_eq_true.mpr (toDigits_isDigit (n + 1) n (Nat.lt_succ_self n))⟩

theorem repr_head_isDigit (n : Nat) :
    ∃ c cs, (Nat.repr n).data = c :: cs ∧ c.isDigit := by
  have hdata : (Nat.repr n).data = Nat.toDigits 10 n := rfl
  rcases hd : Nat.toDigits 10 n with _ | ⟨c, cs⟩
  · exact absurd hd (toDigits_ne_nil n)
  · have hmem : c ∈ Nat.toDigits 10 n := by
      rw [hd]; exact List.mem_cons_self c cs
    exact ⟨c, cs, by rw [hdata, hd], toDigits_isDigit (n + 1) n (Nat.lt_succ_self n) c hmem⟩

theorem parseI32_toString (pid : Int) (h1 : -(2 ^ 31) ≤ pid) (h2 : pid < 2 ^ 31) :
    parseI32 (toString pid) = some pid := by
  cases pid with
  | ofNat m =>
    have hts : toString (Int.ofNat m) = Nat.repr m := rfl
    rw [hts]
    obtain ⟨c, cs, hcons, hdig⟩ := repr_head_isDigit m
    have hcne : c ≠ '-' := by
      intro hc; rw [hc] at hdig; exact absurd hdig (by decide)
    have hcne2 : c ≠ '+' := by
      intro hc; rw [hc] at hdig; exact absurd hdig (by decide)
    have hm : m < 2 ^ 31 := by rw [Int.ofNat_eq_coe] at h2; omega
    unfold parseI32
    rw [hcons]
    simp only [if_neg hcne, if_neg hcne2, ← hcons, parseNatDigits_repr, Option.some_bind,
      if_pos hm]
    rfl
  | negSucc m =>
    have h1' : -(2 ^ 31 : Int) ≤ -((m : Int) + 1) := by
      rw [← Int.negSucc_eq]; exact h1
    have hle : m + 1 ≤ 2 ^ 31 := by omega
    have hts : toString (Int.negSucc m) = "-" ++ Nat.repr (m + 1) := rfl
    rw [hts]
    unfold parseI32
    rw [String.data_append]
    have hdash : ("-" : String).data = ['-'] := rfl
    rw [hdash]
    simp only [List.cons_append, List.nil_append, if_pos rfl, parseNatDigits_repr,
      Option.some_bind]
    rw [if_pos (by omega : m + 1 ≤ 2 ^ 31)]
    rw [Int.negSucc_eq]
    push_cast
    ring_nf

theorem stateFilename_data (name : String) (pid : Int) :
    (stateFilename name pid).data = name.data ++ '-' :: (toString pid).data := by
  unfold stateFilename
  rw [String.data_append, String.data_append]
  have hdash : ("-" : String).data = ['-'] := rfl
  rw [hdash, List.append_assoc]
  rfl

/-! ## Claim C1 -/

/-- C1 counterexample: the round-trip fails when the job name itself
contains the separator.  Writing the record for name `a-` and pid `5`
produces filename `a--5`, which parses back to `(a, -5)`, not `(a-, 5)`. -/
theorem c1_roundtrip_counterexample :
    parse_state_filename (stateFilename "a-" 5) = .ok ("a", -5) ∧
      ("a", (-5 : Int)) ≠ ("a-", (5 : Int)) :=
  ⟨rfl, by decide⟩

/-- C1 (amended): for every job name that does not contain the separator
`-` and every pid representable as an `i32`, writing a state record under
the filename built from the pair and then parsing that filename returns
exactly the original pair; parsing splits on the first separator and
requires the pid part to parse as a signed integer. -/
theorem c1_state_filename_roundtrip (name : String) (pid : Int)
    (hname : '-' ∉ name.data) (h1 : -(2 ^ 31) ≤ pid) (h2 : pid < 2 ^ 31) :
    parse_state_filename (stateFilename name pid) = .ok (name, pid) := by
  unfold parse_state_filename splitOnce
  rw [stateFilename_data, splitOnceAux_append _ _ _ hname]
  simp only [Option.map_some']
  have hmk : String.mk name.data = name := rfl
  have hmk2 : String.mk (toString pid).data = toString pid := rfl
  rw [hmk, hmk2, parseI32_toString pid h1 h2]

/-- C1 witness: the amended round-trip at name `web`, pid `42`. -/
theorem c1_state_filename_roundtrip_witness :
    parse_state_filename (stateFilename "web" 42) = .ok ("web", 42) :=
  c1_state_filename_roundtrip "web" 42 (by decide) (by decide) (by decide)

/-! ## Generic lemmas about the set and file-system helpers -/

theorem mem_insertSet_self (s : List String) (x : String) : x ∈ insertSet s x := by
  unfold insertSet
  by_cases h : x ∈ s
  · simp [h]
  · simp [h]

theorem mem_insertSet_of_mem (s : List String) (x y : String) (h : x ∈ s) :
    x ∈ insertSet s y := by
  unfold insertSet
  by_cases hy : y ∈ s <;> simp [hy, h]

theorem insertSet_nodup (s : List String) (x : String) (h : s.Nodup) :
    (insertSet s x).Nodup := by
  unfold insertSet
  by_cases hx : x ∈ s
  · simpa [hx]
  · rw [if_neg hx]
    exact List.Nodup.append h (List.nodup_singleton x)
      (fun a ha hb => hx ((List.mem_singleton.mp hb) ▸ ha))

theorem getFile_setFile_self (fs : List (String × String)) (path v : String) :
    getFile (setFile fs path v) path = some v := by
  unfold getFile setFile
  rw [List.find?_append]
  have h1 : (List.filter (fun e => decide (e.1 ≠ path)) fs).find?
      (fun e => decide (e.1 = path)) = none := by
    rw [List.find?_eq_none]
    intro x hx
    have := (List.mem_filter.mp hx).2
    simp at this ⊢
    exact this
  rw [h1, Option.none_or]
  simp [List.find?]

theorem getFile_setFile_other (fs : List (String × String)) (path v q : String)
    (h : q ≠ path) : getFile (setFile fs path v) q = getFile fs q := by
  unfold getFile setFile
  rw [List.find?_append]
  have h2 : ([(path, v)]).find? (fun e => decide (e.1 = q)) = none := by
    simp [List.find?, Ne.symm h]
  rw [h2, Option.or_none, List.find?_filter]
  have hpred : (fun a : String × String =>
      decide (decide (a.1 ≠ path) = true ∧ decide (a.1 = q) = true)) =
        (fun a : String × String => decide (a.1 = q)) := by
    funext a
    by_cases ha : a.1 = q
    · simp [ha, h]
    · simp [ha]
  rw [hpred]

theorem not_mem_removeFile (fs : List (String × String)) (path v : String) :
    (path, v) ∉ removeFile fs path := by
  intro hmem
  have := (List.mem_filter.mp hmem).2
  simp at this

theorem mem_removeFile (fs : List (String × String)) (path : String)
    (x : String × String) (h : x ∈ removeFile fs path) : x ∈ fs :=
  (List.mem_filter.mp h).1

/-! ## Claim C4: `stop` and the result of `terminate` -/

theorem terminatePhase_term_irrel (term₁ term₂ : Int → TermResult)
    (projects : List Project) :
    ∀ store, terminatePhase term₁ projects store = terminatePhase term₂ projects store := by
  intro store
  induction store with
  | nil => rfl
  | cons e rest ih =>
    unfold terminatePhase
    cases parse_state_filename e.filename with
    | error err => rfl
    | ok v =>
      by_cases hm : (List.any projects fun p => p.name = v.1) = true <;> simp [hm, ih]

/-- C4 (amended): `stop` discards the result of every `terminate` call
(`let _ = terminate(pid)`, main.rs:115): its outcome — success, store,
logs and report — is identical under any two terminate oracles, so a
`NoSuchProcess` outcome is not treated as a failure, and neither is any
other error such as `PermissionDenied`; no terminate error propagates to
the caller of `stop`. -/
theorem c4_stop_independent_of_terminate (logDir : String)
    (term₁ term₂ : Int → TermResult) (projects : List Project)
    (alive : Nat → Int → Bool) (fuel : Nat) (store : List Entry)
    (logs : List (String × String)) :
    stop logDir term₁ projects alive fuel store logs =
      stop logDir term₂ projects alive fuel store logs := by
  unfold stop
  rw [terminatePhase_term_irrel term₁ term₂ projects store]

/-- C4 counterexample: with a terminate oracle that reports
`PermissionDenied` for the only recorded pid, `stop` still returns
success — the error does not propagate to the caller, contradicting the
claim that errors such as `PermissionDenied` propagate. -/
theorem c4_permission_denied_not_propagated :
    stop "log" (fun _ => TermResult.permissionDenied)
      [⟨"web", "sleep 100", "/", none, none⟩] (fun _ _ => false) 1
      [⟨"web-42", some ⟨"web", "sleep 100", "/", none, none⟩⟩]
      [("log/web", "old output")] = .ok ([], [], none) := rfl

/-! ## Claim C9: `stop` with no matching records -/

theorem terminatePhase_ok (term : Int → TermResult) (projects : List Project) :
    ∀ store, (∀ e ∈ store, ∃ name pid,
        parse_state_filename e.filename = .ok (name, pid)) →
      terminatePhase term projects store = .ok () := by
  intro store
  induction store with
  | nil => intro _; rfl
  | cons e rest ih =>
    intro h
    obtain ⟨name, pid, hp⟩ := h e (List.mem_cons_self e rest)
    unfold terminatePhase
    rw [hp]
    have hrest := ih (fun e' he' => h e' (List.mem_cons_of_mem e he'))
    by_cases hm : (List.any projects fun p => p.name = name) = true <;> simp [hm, hrest]

theorem stopIter_nomatch (logDir : String) (projects : List Project)
    (aliveNow : Int → Bool) :
    ∀ store logs, (∀ e ∈ store, ∃ name pid,
        parse_state_filename e.filename = .ok (name, pid) ∧
          projects.find? (fun p => p.name = name) = none) →
      stopIter logDir projects aliveNow store logs = .ok ⟨store, logs, [], true⟩ := by
  intro store
  induction store with
  | nil => intro logs _; rfl
  | cons e rest ih =>
    intro logs h
    obtain ⟨name, pid, hp, hf⟩ := h e (List.mem_cons_self e rest)
    have hrest := ih logs (fun e' he' => h e' (List.mem_cons_of_mem e he'))
    simp only [stopIter, hp, hf, hrest, Except.map]

/-- C9: calling `stop` on jobs with no matching state records — every
record parses and none of them names a requested project — is a no-op
success: the state store and log directory are unchanged and nothing is
reported as not stopped. -/
theorem c9_stop_no_match_is_noop (logDir : String) (term : Int → TermResult)
    (projects : List Project) (alive : Nat → Int → Bool) (fuel : Nat)
    (store : List Entry) (logs : List (String × String)) (hfuel : 1 ≤ fuel)
    (h : ∀ e ∈ store, ∃ name pid,
      parse_state_filename e.filename = .ok (name, pid) ∧
        projects.find? (fun p => p.name = name) = none) :
    stop logDir term projects alive fuel store logs = .ok (store, logs, none) := by
  unfold stop
  rw [terminatePhase_ok term projects store
    (fun e he => (h e he).imp (fun name hn => hn.imp (fun pid hp => hp.1)))]
  obtain ⟨f, rfl⟩ : ∃ f, fuel = f + 1 := ⟨fuel - 1, by omega⟩
  unfold stopLoop
  rw [stopIter_nomatch logDir projects (alive 0) store logs h]
  rfl

/-- C9 witness: stopping `web` while only a `db` instance is recorded
leaves the store and logs unchanged and succeeds. -/
theorem c9_stop_no_match_is_noop_witness :
    stop "log" (fun _ => TermResult.ok) [⟨"web", "sleep 100", "/", none, none⟩]
      (fun _ _ => true) 1 [⟨"db-7", some ⟨"db", "postgres", "/", none, none⟩⟩]
      [("log/db", "out")] =
      .ok ([⟨"db-7", some ⟨"db", "postgres", "/", none, none⟩⟩], [("log/db", "out")], none) := by
  apply c9_stop_no_match_is_noop
  · exact Nat.le_refl 1
  · intro e he
    rw [List.mem_singleton] at he
    subst he
    exact ⟨"db", 7, rfl, rfl⟩

/-! ## Claim C3: `status` lemmas -/

theorem statusLoop_cons_bad_content (alive : Int → Bool) (e : Entry)
    (rest : List Entry) (set : List String) (hc : e.content = none) :
    statusLoop alive (e :: rest) set =
      .error (.corruptState "content does not deserialize") := by
  simp only [statusLoop, hc]

theorem statusLoop_cons_bad_name (alive : Int → Bool) (e : Entry)
    (rest : List Entry) (set : List String) (proj : Project) (err : Err)
    (hc : e.content = some proj)
    (hp : parse_state_filename e.filename = .error err) :
    statusLoop alive (e :: rest) set = .error err := by
  simp only [statusLoop, hc, hp]

theorem statusLoop_cons_alive (alive : Int → Bool) (e : Entry)
    (rest : List Entry) (set : List String) (proj : Project)
    (name : String) (pid : Int) (hc : e.content = some proj)
    (hp : parse_state_filename e.filename = .ok (name, pid))
    (ha : alive pid = true) :
    statusLoop alive (e :: rest) set =
      (statusLoop alive rest (insertSet set (displayName proj))).map
        (fun r => (e :: r.1, r.2)) := by
  simp only [statusLoop, hc, hp, if_pos ha]

theorem statusLoop_cons_dead (alive : Int → Bool) (e : Entry)
    (rest : List Entry) (set : List String) (proj : Project)
    (name : String) (pid : Int) (hc : e.content = some proj)
    (hp : parse_state_filename e.filename = .ok (name, pid))
    (ha : alive pid = false) :
    statusLoop alive (e :: rest) set = statusLoop alive rest set := by
  simp only [statusLoop, hc, hp, ha]
  rfl

theorem statusLoop_store_subset (alive : Int → Bool) :
    ∀ store set st s, statusLoop alive store set = .ok (st, s) →
      ∀ e ∈ st, e ∈ store := by
  intro store
  induction store with
  | nil =>
    intro set st s h e he
    simp only [statusLoop] at h
    cases h
    exact absurd he (List.not_mem_nil e)
  | cons e' rest ih =>
    intro set st s h e he
    cases hc : e'.content with
    | none => rw [statusLoop_cons_bad_content alive e' rest set hc] at h; exact absurd h (by simp)
    | some proj =>
      cases hp : parse_state_filename e'.filename with
      | error err =>
        rw [statusLoop_cons_bad_name alive e' rest set proj err hc hp] at h
        exact absurd h (by simp)
      | ok v =>
        obtain ⟨name, pid⟩ := v
        cases ha : alive pid with
        | true =>
          rw [statusLoop_cons_alive alive e' rest set proj name pid hc hp ha] at h
          cases hrec : statusLoop alive rest (insertSet set (displayName proj)) with
          | error err => rw [hrec] at h; exact absurd h (by simp [Except.map])
          | ok r =>
            rw [hrec] at h
            simp only [Except.map, Except.ok.injEq, Prod.mk.injEq] at h
            rcases List.mem_cons.mp (h.1 ▸ he) with rfl | hmem
            · exact List.mem_cons_self e rest
            · exact List.mem_cons_of_mem e' (ih _ _ _ hrec e hmem)
        | false =>
          rw [statusLoop_cons_dead alive e' rest set proj name pid hc hp ha] at h
          exact List.mem_cons_of_mem e' (ih _ _ _ h e he)

theorem statusLoop_set_subset (alive : Int → Bool) :
    ∀ store set st s, statusLoop alive store set = .ok (st, s) →
      ∀ x ∈ set, x ∈ s := by
  intro store
  induction store with
  | nil =>
    intro set st s h x hx
    simp only [statusLoop] at h
    cases h
    exact hx
  | cons e' rest ih =>
    intro set st s h x hx
    cases hc : e'.content with
    | none => rw [statusLoop_cons_bad_content alive e' rest set hc] at h; exact absurd h (by simp)
    | some proj =>
      cases hp : parse_state_filename e'.filename with
      | error err =>
        rw [statusLoop_cons_bad_name alive e' rest set proj err hc hp] at h
        exact absurd h (by simp)
      | ok v =>
        obtain ⟨name, pid⟩ := v
        cases ha : alive pid with
        | true =>
          rw [statusLoop_cons_alive alive e' rest set proj name pid hc hp ha] at h
          cases hrec : statusLoop alive rest (insertSet set (displayName proj)) with
          | error err => rw [hrec] at h; exact absurd h (by simp [Except.map])
          | ok r =>
            rw [hrec] at h
            simp only [Except.map, Except.ok.injEq, Prod.mk.injEq] at h
            exact h.2 ▸ ih _ _ _ hrec x (mem_insertSet_of_mem _ _ _ hx)
        | false =>
          rw [statusLoop_cons_dead alive e' rest set proj name pid hc hp ha] at h
          exact ih _ _ _ h x hx

theorem statusLoop_alive_kept (alive : Int → Bool) :
    ∀ store set st s, statusLoop alive store set = .ok (st, s) →
      ∀ e ∈ store, ∀ proj, e.content = some proj →
        ∀ name pid, parse_state_filename e.filename = .ok (name, pid) →
          alive pid = true → e ∈ st ∧ displayName proj ∈ s := by
  intro store
  induction store with
  | nil =>
    intro set st s h e he
    exact absurd he (List.not_mem_nil e)
  | cons e' rest ih =>
    intro set st s h e he proj hcont name pid hpar halive
    rcases List.mem_cons.mp he with rfl | hmem
    · rw [statusLoop_cons_alive alive e rest set proj name pid hcont hpar halive] at h
      cases hrec : statusLoop alive rest (insertSet set (displayName proj)) with
      | error err => rw [hrec] at h; exact absurd h (by simp [Except.map])
      | ok r =>
        rw [hrec] at h
        simp only [Except.map, Except.ok.injEq, Prod.mk.injEq] at h
        refine ⟨h.1 ▸ List.mem_cons_self e r.1, h.2 ▸ ?_⟩
        exact statusLoop_set_subset alive rest _ _ _ hrec (displayName proj)
          (mem_insertSet_self set (displayName proj))
    · cases hc : e'.content with
      | none =>
        rw [statusLoop_cons_bad_content alive e' rest set hc] at h
        exact absurd h (by simp)
      | some proj' =>
        cases hp : parse_state_filename e'.filename with
        | error err =>
          rw [statusLoop_cons_bad_name alive e' rest set proj' err hc hp] at h
          exact absurd h (by simp)
        | ok v =>
          obtain ⟨name', pid'⟩ := v
          cases ha : alive pid' with
          | true =>
            rw [statusLoop_cons_alive alive e' rest set proj' name' pid' hc hp ha] at h
            cases hrec : statusLoop alive rest (insertSet set (displayName proj')) with
            | error err => rw [hrec] at h; exact absurd h (by simp [Except.map])
            | ok r =>
              rw [hrec] at h
              simp only [Except.map, Except.ok.injEq, Prod.mk.injEq] at h
              obtain ⟨hkept, hset⟩ := ih _ _ _ hrec e hmem proj hcont name pid hpar halive
              exact ⟨h.1 ▸ List.mem_cons_of_mem e' hkept, h.2 ▸ hset⟩
          | false =>
            rw [statusLoop_cons_dead alive e' rest set proj' name' pid' hc hp ha] at h
            exact ih _ _ _ h e hmem proj hcont name pid hpar halive

theorem statusLoop_dead_removed (alive : Int → Bool) :
    ∀ store set st s, statusLoop alive store set = .ok (st, s) →
      ∀ e ∈ store, ∀ proj, e.content = some proj →
        ∀ name pid, parse_state_filename e.filename = .ok (name, pid) →
          alive pid = false → e ∉ st := by
  intro store
  induction store with
  | nil =>
    intro set st s h e he
    exact absurd he (List.not_mem_nil e)
  | cons e' rest ih =>
    intro set st s h e he proj hcont name pid hpar hdead
    rcases List.mem_cons.mp he with rfl | hmem
    · rw [statusLoop_cons_dead alive e rest set proj name pid hcont hpar hdead] at h
      by_cases hrest : e ∈ rest
      · exact ih _ _ _ h e hrest proj hcont name pid hpar hdead
      · intro hst
        exact hrest (statusLoop_store_subset alive rest _ _ _ h e hst)
    · cases hc : e'.content with
      | none =>
        rw [statusLoop_cons_bad_content alive e' rest set hc] at h
        exact absurd h (by simp)
      | some proj' =>
        cases hp : parse_state_filename e'.filename with
        | error err =>
          rw [statusLoop_cons_bad_name alive e' rest set proj' err hc hp] at h
          exact absurd h (by simp)
        | ok v =>
          obtain ⟨name', pid'⟩ := v
          cases ha : alive pid' with
          | true =>
            rw [statusLoop_cons_alive alive e' rest set proj' name' pid' hc hp ha] at h
            cases hrec : statusLoop alive rest (insertSet set (displayName proj')) with
            | error err => rw [hrec] at h; exact absurd h (by simp [Except.map])
            | ok r =>
              rw [hrec] at h
              simp only [Except.map, Except.ok.injEq, Prod.mk.injEq] at h
              have hnot := ih _ _ _ hrec e hmem proj hcont name pid hpar hdead
              intro hst
              rcases List.mem_cons.mp (h.1 ▸ hst) with rfl | hmem2
              · rw [hp] at hpar
                cases hpar
                rw [ha] at hdead
                cases hdead
              · exact hnot hmem2
          | false =>
            rw [statusLoop_cons_dead alive e' rest set proj' name' pid' hc hp ha] at h
            exact ih _ _ _ h e hmem proj hcont name pid hpar hdead

theorem statusLoop_set_nodup (alive : Int → Bool) :
    ∀ store set st s, statusLoop alive store set = .ok (st, s) →
      set.Nodup → s.Nodup := by
  intro store
  induction store with
  | nil =>
    intro set st s h hnd
    simp only [statusLoop] at h
    cases h
    exact hnd
  | cons e' rest ih =>
    intro set st s h hnd
    cases hc : e'.content with
    | none => rw [statusLoop_cons_bad_content alive e' rest set hc] at h; exact absurd h (by simp)
    | some proj =>
      cases hp : parse_state_filename e'.filename with
      | error err =>
        rw [statusLoop_cons_bad_name alive e' rest set proj err hc hp] at h
        exact absurd h (by simp)
      | ok v =>
        obtain ⟨name, pid⟩ := v
        cases ha : alive pid with
        | true =>
          rw [statusLoop_cons_alive alive e' rest set proj name pid hc hp ha] at h
          cases hrec : statusLoop alive rest (insertSet set (displayName proj)) with
          | error err => rw [hrec] at h; exact absurd h (by simp [Except.map])
          | ok r =>
            rw [hrec] at h
            simp only [Except.map, Except.ok.injEq, Prod.mk.injEq] at h
            exact h.2 ▸ ih _ _ _ hrec (insertSet_nodup set (displayName proj) hnd)
        | false =>
          rw [statusLoop_cons_dead alive e' rest set proj name pid hc hp ha] at h
          exact ih _ _ _ h hnd

/-- C3: `status` probes every well-formed record's pid.  Conditional on
`status` succeeding: the set of reported display names is duplicate-free;
a record whose pid is alive survives and its display name (the recorded
display, or the name when none is set) is reported; a record whose pid is
dead is removed, and running `status` again on the resulting store does
not bring it back. -/
theorem c3_status_spec (alive : Int → Bool) (store st : List Entry)
    (set : List String) (h : status alive store = .ok (st, set)) (e : Entry)
    (he : e ∈ store) (proj : Project) (hcont : e.content = some proj)
    (name : String) (pid : Int)
    (hpar : parse_state_filename e.filename = .ok (name, pid)) :
    set.Nodup ∧
      (alive pid = true → e ∈ st ∧ displayName proj ∈ set) ∧
      (alive pid = false → e ∉ st ∧
        ∀ st' set', status alive st = .ok (st', set') → e ∉ st') := by
  refine ⟨statusLoop_set_nodup alive store [] st set h List.nodup_nil, ?_, ?_⟩
  · intro halive
    exact statusLoop_alive_kept alive store [] st set h e he proj hcont name pid hpar halive
  · intro hdead
    have hout := statusLoop_dead_removed alive store [] st set h e he proj hcont
      name pid hpar hdead
    refine ⟨hout, fun st' set' h' hst' => ?_⟩
    exact hout (statusLoop_store_subset alive st [] st' set' h' e hst')

/-- C3 witness: a store with one live `web` instance and one dead `db`
instance; `status` keeps and reports `web`, removes the dead record, and a
second `status` call does not resurrect it. -/
theorem c3_status_spec_witness :
    ([" web display"].Nodup ∧
      ((fun pid : Int => pid = 42 : Int → Bool) 7 = true →
        (⟨"db-7", some ⟨"db", "postgres", "/", none, none⟩⟩ : Entry) ∈
          [(⟨"web-42", some ⟨"web", "sleep 100", "/", some " web display", none⟩⟩ : Entry)] ∧
        displayName ⟨"db", "postgres", "/", none, none⟩ ∈ [" web display"]) ∧
      ((fun pid : Int => pid = 42 : Int → Bool) 7 = false →
        (⟨"db-7", some ⟨"db", "postgres", "/", none, none⟩⟩ : Entry) ∉
          [(⟨"web-42", some ⟨"web", "sleep 100", "/", some " web display", none⟩⟩ : Entry)] ∧
        ∀ st' set', status (fun pid : Int => pid = 42)
            [⟨"web-42", some ⟨"web", "sleep 100", "/", some " web display", none⟩⟩] =
              .ok (st', set') →
          (⟨"db-7", some ⟨"db", "postgres", "/", none, none⟩⟩ : Entry) ∉ st')) :=
  c3_status_spec (fun pid => pid = 42)
    [⟨"web-42", some ⟨"web", "sleep 100", "/", some " web display", none⟩⟩,
      ⟨"db-7", some ⟨"db", "postgres", "/", none, none⟩⟩]
    [⟨"web-42", some ⟨"web", "sleep 100", "/", some " web display", none⟩⟩]
    [" web display"] rfl ⟨"db-7", some ⟨"db", "postgres", "/", none, none⟩⟩
    (by simp) ⟨"db", "postgres", "/", none, none⟩ rfl "db" 7 rfl

/-! ## Claim C2: `stop` polling-loop lemmas -/

theorem stopIter_cons_bad (logDir : String) (projects : List Project)
    (aliveNow : Int → Bool) (e : Entry) (rest : List Entry)
    (logs : List (String × String)) (err : Err)
    (hp : parse_state_filename e.filename = .error err) :
    stopIter logDir projects aliveNow (e :: rest) logs = .error err := by
  simp only [stopIter, hp]

theorem stopIter_cons_nomatch (logDir : String) (projects : List Project)
    (aliveNow : Int → Bool) (e : Entry) (rest : List Entry)
    (logs : List (String × String)) (name : String) (pid : Int)
    (hp : parse_state_filename e.filename = .ok (name, pid))
    (hf : projects.find? (fun p => p.name = name) = none) :
    stopIter logDir projects aliveNow (e :: rest) logs =
      (stopIter logDir projects aliveNow rest logs).map
        (fun r => { r with store := e :: r.store }) := by
  simp only [stopIter, hp, hf]

theorem stopIter_cons_alive (logDir : String) (projects : List Project)
    (aliveNow : Int → Bool) (e : Entry) (rest : List Entry)
    (logs : List (String × String)) (name : String) (pid : Int) (p : Project)
    (hp : parse_state_filename e.filename = .ok (name, pid))
    (hf : projects.find? (fun q => q.name = name) = some p)
    (ha : aliveNow pid = true) :
    stopIter logDir projects aliveNow (e :: rest) logs =
      (stopIter logDir projects aliveNow rest logs).map
        (fun r =>
          { r with
            store := e :: r.store
            set := insertSet r.set (displayName p)
            finished := false }) := by
  simp only [stopIter, hp, hf, if_pos ha]

theorem stopIter_cons_dead (logDir : String) (projects : List Project)
    (aliveNow : Int → Bool) (e : Entry) (rest : List Entry)
    (logs : List (String × String)) (name : String) (pid : Int) (p : Project)
    (hp : parse_state_filename e.filename = .ok (name, pid))
    (hf : projects.find? (fun q => q.name = name) = some p)
    (ha : aliveNow pid = false) :
    stopIter logDir projects aliveNow (e :: rest) logs =
      stopIter logDir projects aliveNow rest
        (removeFile logs (logPath logDir p.name)) := by
  simp only [stopIter, hp, hf, ha]
  rfl

theorem stopIter_store_subset (logDir : String) (projects : List Project)
    (aliveNow : Int → Bool) :
    ∀ store logs r, stopIter logDir projects aliveNow store logs = .ok r →
      ∀ e ∈ r.store, e ∈ store := by
  intro store
  induction store with
  | nil =>
    intro logs r h e he
    simp only [stopIter] at h
    cases h
    exact absurd he (List.not_mem_nil e)
  | cons e' rest ih =>
    intro logs r h e he
    cases hp : parse_state_filename e'.filename with
    | error err =>
      rw [stopIter_cons_bad logDir projects aliveNow e' rest logs err hp] at h
      exact absurd h (by simp)
    | ok v =>
      obtain ⟨name, pid⟩ := v
      cases hf : projects.find? (fun q => q.name = name) with
      | none =>
        rw [stopIter_cons_nomatch logDir projects aliveNow e' rest logs name pid hp hf] at h
        cases hrec : stopIter logDir projects aliveNow rest logs with
        | error err => rw [hrec] at h; exact absurd h (by simp [Except.map])
        | ok r' =>
          rw [hrec] at h
          simp only [Except.map, Except.ok.injEq] at h
          rw [← h] at he
          rcases List.mem_cons.mp he with rfl | hmem
          · exact List.mem_cons_self e rest
          · exact List.mem_cons_of_mem e' (ih _ _ hrec e hmem)
      | some p =>
        cases ha : aliveNow pid with
        | true =>
          rw [stopIter_cons_alive logDir projects aliveNow e' rest logs name pid p hp hf ha] at h
          cases hrec : stopIter logDir projects aliveNow rest logs with
          | error err => rw [hrec] at h; exact absurd h (by simp [Except.map])
          | ok r' =>
            rw [hrec] at h
            simp only [Except.map, Except.ok.injEq] at h
            rw [← h] at he
            rcases List.mem_cons.mp he with rfl | hmem
            · exact List.mem_cons_self e rest
            · exact List.mem_cons_of_mem e' (ih _ _ hrec e hmem)
        | false =>
          rw [stopIter_cons_dead logDir projects aliveNow e' rest logs name pid p hp hf ha] at h
          exact List.mem_cons_of_mem e' (ih _ _ h e he)

theorem stopIter_logs_subset (logDir : String) (projects : List Project)
    (aliveNow : Int → Bool) :
    ∀ store logs r, stopIter logDir projects aliveNow store logs = .ok r →
      ∀ x ∈ r.logs, x ∈ logs := by
  intro store
  induction store with
  | nil =>
    intro logs r h x hx
    simp only [stopIter] at h
    cases h
    exact hx
  | cons e' rest ih =>
    intro logs r h x hx
    cases hp : parse_state_filename e'.filename with
    | error err =>
      rw [stopIter_cons_bad logDir projects aliveNow e' rest logs err hp] at h
      exact absurd h (by simp)
    | ok v =>
      obtain ⟨name, pid⟩ := v
      cases hf : projects.find? (fun q => q.name = name) with
      | none =>
        rw [stopIter_cons_nomatch logDir projects aliveNow e' rest logs name pid hp hf] at h
        cases hrec : stopIter logDir projects aliveNow rest logs with
        | error err => rw [hrec] at h; exact absurd h (by simp [Except.map])
        | ok r' =>
          rw [hrec] at h
          simp only [Except.map, Except.ok.injEq] at h
          rw [← h] at hx
          exact ih _ _ hrec x hx
      | some p =>
        cases ha : aliveNow pid with
        | true =>
          rw [stopIter_cons_alive logDir projects aliveNow e' rest logs name pid p hp hf ha] at h
          cases hrec : stopIter logDir projects aliveNow rest logs with
          | error err => rw [hrec] at h; exact absurd h (by simp [Except.map])
          | ok r' =>
            rw [hrec] at h
            simp only [Except.map, Except.ok.injEq] at h
            rw [← h] at hx
            exact ih _ _ hrec x hx
        | false =>
          rw [stopIter_cons_dead logDir projects aliveNow e' rest logs name pid p hp hf ha] at h
          exact mem_removeFile logs _ x (ih _ _ h x hx)

theorem stopIter_dead_removed (logDir : String) (projects : List Project)
    (aliveNow : Int → Bool) :
    ∀ store logs r, stopIter logDir projects aliveNow store logs = .ok r →
      ∀ e ∈ store, ∀ name pid p,
        parse_state_filename e.filename = .ok (name, pid) →
        projects.find? (fun q => q.name = name) = some p →
        aliveNow pid = false →
        e ∉ r.store ∧ ∀ v, (logPath logDir p.name, v) ∉ r.logs := by
  intro store
  induction store with
  | nil =>
    intro logs r h e he
    exact absurd he (List.not_mem_nil e)
  | cons e' rest ih =>
    intro logs r h e he name pid p hp hf hdead
    rcases List.mem_cons.mp he with rfl | hmem
    · rw [stopIter_cons_dead logDir projects aliveNow e rest logs name pid p hp hf hdead] at h
      constructor
      · by_cases hrest : e ∈ rest
        · exact (ih _ _ h e hrest name pid p hp hf hdead).1
        · intro hst
          exact hrest (stopIter_store_subset logDir projects aliveNow rest _ _ h e hst)
      · intro v hv
        exact not_mem_removeFile logs (logPath logDir p.name) v
          (stopIter_logs_subset logDir projects aliveNow rest _ _ h _ hv)
    · cases hp' : parse_state_filename e'.filename with
      | error err =>
        rw [stopIter_cons_bad logDir projects aliveNow e' rest logs err hp'] at h
        exact absurd h (by simp)
      | ok v' =>
        obtain ⟨name', pid'⟩ := v'
        cases hf' : projects.find? (fun q => q.name = name') with
        | none =>
          rw [stopIter_cons_nomatch logDir projects aliveNow e' rest logs name' pid' hp' hf'] at h
          cases hrec : stopIter logDir projects aliveNow rest logs with
          | error err => rw [hrec] at h; exact absurd h (by simp [Except.map])
          | ok r' =>
            rw [hrec] at h
            simp only [Except.map, Except.ok.injEq] at h
            obtain ⟨hstore, hlogs⟩ := ih _ _ hrec e hmem name pid p hp hf hdead
            constructor
            · rw [← h]
              intro hst
              rcases List.mem_cons.mp hst with rfl | hmem2
              · rw [hp'] at hp
                cases hp
                rw [hf'] at hf
                cases hf
              · exact hstore hmem2
            · rw [← h]
              exact hlogs
        | some q =>
          cases ha : aliveNow pid' with
          | true =>
            rw [stopIter_cons_alive logDir projects aliveNow e' rest logs name' pid' q hp' hf' ha] at h
            cases hrec : stopIter logDir projects aliveNow rest logs with
            | error err => rw [hrec] at h; exact absurd h (by simp [Except.map])
            | ok r' =>
              rw [hrec] at h
              simp only [Except.map, Except.ok.injEq] at h
              obtain ⟨hstore, hlogs⟩ := ih _ _ hrec e hmem name pid p hp hf hdead
              constructor
              · rw [← h]
                intro hst
                rcases List.mem_cons.mp hst with rfl | hmem2
                · rw [hp'] at hp
                  cases hp
                  rw [ha] at hdead
                  cases hdead
                · exact hstore hmem2
              · rw [← h]
                exact hlogs
          | false =>
            rw [stopIter_cons_dead logDir projects aliveNow e' rest logs name' pid' q hp' hf' ha] at h
            exact ih _ _ h e hmem name pid p hp hf hdead

theorem stopIter_alive_kept (logDir : String) (projects : List Project)
    (aliveNow : Int → Bool) :
    ∀ store logs r, stopIter logDir projects aliveNow store logs = .ok r →
      ∀ e ∈ store, ∀ name pid p,
        parse_state_filename e.filename = .ok (name, pid) →
        projects.find? (fun q => q.name = name) = some p →
        aliveNow pid = true →
        e ∈ r.store ∧ displayName p ∈ r.set ∧ r.finished = false := by
  intro store
  induction store with
  | nil =>
    intro logs r h e he
    exact absurd he (List.not_mem_nil e)
  | cons e' rest ih =>
    intro logs r h e he name pid p hp hf halive
    rcases List.mem_cons.mp he with rfl | hmem
    · rw [stopIter_cons_alive logDir projects aliveNow e rest logs name pid p hp hf halive] at h
      cases hrec : stopIter logDir projects aliveNow rest logs with
      | error err => rw [hrec] at h; exact absurd h (by simp [Except.map])
      | ok r' =>
        rw [hrec] at h
        simp only [Except.map, Except.ok.injEq] at h
        rw [← h]
        exact ⟨List.mem_cons_self e r'.store,
          mem_insertSet_self r'.set (displayName p), rfl⟩
    · cases hp' : parse_state_filename e'.filename with
      | error err =>
        rw [stopIter_cons_bad logDir projects aliveNow e' rest logs err hp'] at h
        exact absurd h (by simp)
      | ok v' =>
        obtain ⟨name', pid'⟩ := v'
        cases hf' : projects.find? (fun q => q.name = name') with
        | none =>
          rw [stopIter_cons_nomatch logDir projects aliveNow e' rest logs name' pid' hp' hf'] at h
          cases hrec : stopIter logDir projects aliveNow rest logs with
          | error err => rw [hrec] at h; exact absurd h (by simp [Except.map])
          | ok r' =>
            rw [hrec] at h
            simp only [Except.map, Except.ok.injEq] at h
            obtain ⟨h1, h2, h3⟩ := ih _ _ hrec e hmem name pid p hp hf halive
            rw [← h]
            exact ⟨List.mem_cons_of_mem e' h1, h2, h3⟩
        | some q =>
          cases ha : aliveNow pid' with
          | true =>
            rw [stopIter_cons_alive logDir projects aliveNow e' rest logs name' pid' q hp' hf' ha] at h
            cases hrec : stopIter logDir projects aliveNow rest logs with
            | error err => rw [hrec] at h; exact absurd h (by simp [Except.map])
            | ok r' =>
              rw [hrec] at h
              simp only [Except.map, Except.ok.injEq] at h
              obtain ⟨h1, h2, h3⟩ := ih _ _ hrec e hmem name pid p hp hf halive
              rw [← h]
              exact ⟨List.mem_cons_of_mem e' h1,
                mem_insertSet_of_mem _ _ _ h2, rfl⟩
          | false =>
            rw [stopIter_cons_dead logDir projects aliveNow e' rest logs name' pid' q hp' hf' ha] at h
            exact ih _ _ h e hmem name pid p hp hf halive

theorem stopLoop_zero (logDir : String) (projects : List Project)
    (alive : Nat → Int → Bool) (i : Nat) (store : List Entry)
    (logs : List (String × String)) :
    stopLoop logDir projects alive i 0 store logs = .ok (store, logs, none) := rfl

theorem stopLoop_succ_eq (logDir : String) (projects : List Project)
    (alive : Nat → Int → Bool) (i fuel : Nat) (store : List Entry)
    (logs : List (String × String)) :
    stopLoop logDir projects alive i (fuel + 1) store logs =
      match stopIter logDir projects (alive i) store logs with
      | .error err => .error err
      | .ok r =>
        if r.finished then .ok (r.store, r.logs, none)
        else
          match fuel with
          | 0 => .ok (r.store, r.logs, some r.set)
          | f + 1 => stopLoop logDir projects alive (i + 1) (f + 1) r.store r.logs := by
  rw [stopLoop.eq_def]

theorem stopLoop_succ_err (logDir : String) (projects : List Project)
    (alive : Nat → Int → Bool) (i fuel : Nat) (store : List Entry)
    (logs : List (String × String)) (err : Err)
    (hiter : stopIter logDir projects (alive i) store logs = .error err) :
    stopLoop logDir projects alive i (fuel + 1) store logs = .error err := by
  rw [stopLoop_succ_eq, hiter]

theorem stopLoop_succ_finished (logDir : String) (projects : List Project)
    (alive : Nat → Int → Bool) (i fuel : Nat) (store : List Entry)
    (logs : List (String × String)) (r : IterResult)
    (hiter : stopIter logDir projects (alive i) store logs = .ok r)
    (hfin : r.finished = true) :
    stopLoop logDir projects alive i (fuel + 1) store logs =
      .ok (r.store, r.logs, none) := by
  rw [stopLoop_succ_eq, hiter]
  simp [hfin]

theorem stopLoop_one_timeout (logDir : String) (projects : List Project)
    (alive : Nat → Int → Bool) (i : Nat) (store : List Entry)
    (logs : List (String × String)) (r : IterResult)
    (hiter : stopIter logDir projects (alive i) store logs = .ok r)
    (hfin : r.finished = false) :
    stopLoop logDir projects alive i 1 store logs =
      .ok (r.store, r.logs, some r.set) := by
  rw [stopLoop_succ_eq, hiter]
  simp [hfin]

theorem stopLoop_succ_continue (logDir : String) (projects : List Project)
    (alive : Nat → Int → Bool) (i f : Nat) (store : List Entry)
    (logs : List (String × String)) (r : IterResult)
    (hiter : stopIter logDir projects (alive i) store logs = .ok r)
    (hfin : r.finished = false) :
    stopLoop logDir projects alive i (f + 2) store logs =
      stopLoop logDir projects alive (i + 1) (f + 1) r.store r.logs := by
  rw [stopLoop_succ_eq, hiter]
  simp [hfin]

theorem stopLoop_subset (logDir : String) (projects : List Project)
    (alive : Nat → Int → Bool) :
    ∀ fuel i store logs st lg rep,
      stopLoop logDir projects alive i fuel store logs = .ok (st, lg, rep) →
      (∀ e ∈ st, e ∈ store) ∧ (∀ x ∈ lg, x ∈ logs) := by
  intro fuel
  induction fuel with
  | zero =>
    intro i store logs st lg rep h
    rw [stopLoop_zero] at h
    cases h
    exact ⟨fun e he => he, fun x hx => hx⟩
  | succ f ih =>
    intro i store logs st lg rep h
    cases hiter : stopIter logDir projects (alive i) store logs with
    | error err =>
      rw [stopLoop_succ_err logDir projects alive i f store logs err hiter] at h
      exact absurd h (by simp)
    | ok r =>
      have hsub : (∀ e ∈ r.store, e ∈ store) ∧ ∀ x ∈ r.logs, x ∈ logs :=
        ⟨stopIter_store_subset logDir projects (alive i) store logs r hiter,
          stopIter_logs_subset logDir projects (alive i) store logs r hiter⟩
      cases hfin : r.finished with
      | true =>
        rw [stopLoop_succ_finished logDir projects alive i f store logs r hiter hfin] at h
        cases h
        exact hsub
      | false =>
        cases f with
        | zero =>
          rw [stopLoop_one_timeout logDir projects alive i store logs r hiter hfin] at h
          cases h
          exact hsub
        | succ f' =>
          rw [stopLoop_succ_continue logDir projects alive i f' store logs r hiter hfin] at h
          obtain ⟨h1, h2⟩ := ih (i + 1) r.store r.logs st lg rep h
          exact ⟨fun e he => hsub.1 e (h1 e he), fun x hx => hsub.2 x (h2 x hx)⟩

theorem stopLoop_dead (logDir : String) (projects : List Project)
    (alive : Nat → Int → Bool) (e : Entry) (name : String) (pid : Int)
    (p : Project) (hp : parse_state_filename e.filename = .ok (name, pid))
    (hf : projects.find? (fun q => q.name = name) = some p) :
    ∀ k i fuel store logs st lg rep, k < fuel →
      (∀ j, j < k → alive (i + j) pid = true) → alive (i + k) pid = false →
      e ∈ store →
      stopLoop logDir projects alive i fuel store logs = .ok (st, lg, rep) →
      e ∉ st ∧ ∀ v, (logPath logDir p.name, v) ∉ lg := by
  intro k
  induction k with
  | zero =>
    intro i fuel store logs st lg rep hk _ hdead he h
    obtain ⟨f, rfl⟩ : ∃ f, fuel = f + 1 := ⟨fuel - 1, by omega⟩
    rw [Nat.add_zero] at hdead
    cases hiter : stopIter logDir projects (alive i) store logs with
    | error err =>
      rw [stopLoop_succ_err logDir projects alive i f store logs err hiter] at h
      exact absurd h (by simp)
    | ok r =>
      obtain ⟨hst, hlg⟩ := stopIter_dead_removed logDir projects (alive i) store logs r
        hiter e he name pid p hp hf hdead
      cases hfin : r.finished with
      | true =>
        rw [stopLoop_succ_finished logDir projects alive i f store logs r hiter hfin] at h
        cases h
        exact ⟨hst, hlg⟩
      | false =>
        cases f with
        | zero =>
          rw [stopLoop_one_timeout logDir projects alive i store logs r hiter hfin] at h
          cases h
          exact ⟨hst, hlg⟩
        | succ f' =>
          rw [stopLoop_succ_continue logDir projects alive i f' store logs r hiter hfin] at h
          obtain ⟨h1, h2⟩ := stopLoop_subset logDir projects alive (f' + 1) (i + 1)
            r.store r.logs st lg rep h
          exact ⟨fun hest => hst (h1 e hest), fun v hv => hlg v (h2 _ hv)⟩
  | succ k ihk =>
    intro i fuel store logs st lg rep hk halive hdead he h
    obtain ⟨f, rfl⟩ : ∃ f, fuel = f + 1 := ⟨fuel - 1, by omega⟩
    cases hiter : stopIter logDir projects (alive i) store logs with
    | error err =>
      rw [stopLoop_succ_err logDir projects alive i f store logs err hiter] at h
      exact absurd h (by simp)
    | ok r =>
      have halive0 : alive i pid = true := by
        have := halive 0 (Nat.succ_pos k)
        rwa [Nat.add_zero] at this
      obtain ⟨hkept, _, hfin⟩ := stopIter_alive_kept logDir projects (alive i) store logs r
        hiter e he name pid p hp hf halive0
      cases f with
      | zero => omega
      | succ f' =>
        rw [stopLoop_succ_continue logDir projects alive i f' store logs r hiter hfin] at h
        refine ihk (i + 1) (f' + 1) r.store r.logs st lg rep (by omega) ?_ ?_ hkept h
        · intro j hj
          have := halive (j + 1) (by omega)
          rwa [show i + (j + 1) = i + 1 + j by omega] at this
        · have := hdead
          rwa [show i + (k + 1) = i + 1 + k by omega] at this

theorem stopLoop_alive (logDir : String) (projects : List Project)
    (alive : Nat → Int → Bool) (e : Entry) (name : String) (pid : Int)
    (p : Project) (hp : parse_state_filename e.filename = .ok (name, pid))
    (hf : projects.find? (fun q => q.name = name) = some p) :
    ∀ fuel i store logs st lg rep, 1 ≤ fuel →
      (∀ j, j < fuel → alive (i + j) pid = true) → e ∈ store →
      stopLoop logDir projects alive i fuel store logs = .ok (st, lg, rep) →
      e ∈ st ∧ ∃ s, rep = some s ∧ displayName p ∈ s := by
  intro fuel
  induction fuel with
  | zero => intro i store logs st lg rep hfuel; omega
  | succ f ih =>
    intro i store logs st lg rep _ halive he h
    cases hiter : stopIter logDir projects (alive i) store logs with
    | error err =>
      rw [stopLoop_succ_err logDir projects alive i f store logs err hiter] at h
      exact absurd h (by simp)
    | ok r =>
      have halive0 : alive i pid = true := by
        have := halive 0 (Nat.succ_pos f)
        rwa [Nat.add_zero] at this
      obtain ⟨hkept, hset, hfin⟩ := stopIter_alive_kept logDir projects (alive i) store logs r
        hiter e he name pid p hp hf halive0
      cases f with
      | zero =>
        rw [stopLoop_one_timeout logDir projects alive i store logs r hiter hfin] at h
        cases h
        exact ⟨hkept, r.set, rfl, hset⟩
      | succ f' =>
        rw [stopLoop_succ_continue logDir projects alive i f' store logs r hiter hfin] at h
        refine ih (i + 1) r.store r.logs st lg rep (Nat.succ_le_succ (Nat.zero_le f')) ?_ hkept h
        intro j hj
        have := halive (j + 1) (by omega)
        rwa [show i + (j + 1) = i + 1 + j by omega] at this

/-- C2: conditional on `stop` succeeding, for every state record matched
to a requested project: if its process is observed dead at some pass of
the polling window, its state record is removed and the job's log file is
deleted from the log directory; if it stays alive through every pass of
the window, the timeout report is produced, the project's display name is
in it, and the state record is left in place. -/
theorem c2_stop_dead_reaped_alive_reported (logDir : String)
    (term : Int → TermResult) (projects : List Project)
    (alive : Nat → Int → Bool) (fuel : Nat) (store : List Entry)
    (logs : List (String × String)) (st : List Entry)
    (lg : List (String × String)) (rep : Option (List String))
    (h : stop logDir term projects alive fuel store logs = .ok (st, lg, rep))
    (e : Entry) (he : e ∈ store) (name : String) (pid : Int) (p : Project)
    (hp : parse_state_filename e.filename = .ok (name, pid))
    (hf : projects.find? (fun q => q.name = name) = some p) :
    ((∃ i, i < fuel ∧ alive i pid = false) →
      e ∉ st ∧ ∀ v, (logPath logDir p.name, v) ∉ lg) ∧
    ((∀ i, i < fuel → alive i pid = true) → 1 ≤ fuel →
      e ∈ st ∧ ∃ s, rep = some s ∧ displayName p ∈ s) := by
  unfold stop at h
  cases hterm : terminatePhase term projects store with
  | error err => rw [hterm] at h; exact absurd h (by simp)
  | ok u =>
    rw [hterm] at h
    constructor
    · intro hex
      have hex' : ∃ i, alive i pid = false := hex.imp (fun i hi => hi.2)
      set k := Nat.find hex' with hkdef
      have hkdead : alive k pid = false := Nat.find_spec hex'
      have hmin : ∀ j, j < k → alive j pid = true := by
        intro j hj
        have := Nat.find_min hex' hj
        revert this
        cases alive j pid <;> simp
      have hkfuel : k < fuel := by
        obtain ⟨i, hi, hdead⟩ := hex
        exact Nat.lt_of_le_of_lt (Nat.find_min' hex' hdead) hi
      refine stopLoop_dead logDir projects alive e name pid p hp hf k 0 fuel store logs
        st lg rep hkfuel ?_ ?_ he h
      · intro j hj
        rw [Nat.zero_add]
        exact hmin j hj
      · rw [Nat.zero_add]
        exact hkdead
    · intro halive hfuel
      refine stopLoop_alive logDir projects alive e name pid p hp hf fuel 0 store logs
        st lg rep hfuel ?_ he h
      intro j hj
      rw [Nat.zero_add]
      exact halive j hj

/-- C2 witness: one recorded `web` instance whose process is dead at the
first poll; `stop` removes its record and deletes its log file. -/
theorem c2_stop_dead_reaped_alive_reported_witness :
    (⟨"web-42", some ⟨"web", "sleep 100", "/", none, none⟩⟩ : Entry) ∉ ([] : List Entry) ∧
      ∀ v, (logPath "log" "web", v) ∉ ([] : List (String × String)) :=
  (c2_stop_dead_reaped_alive_reported "log" (fun _ => TermResult.ok)
    [⟨"web", "sleep 100", "/", none, none⟩] (fun _ _ => false) 1
    [⟨"web-42", some ⟨"web", "sleep 100", "/", none, none⟩⟩] [("log/web", "old")]
    [] [] none rfl ⟨"web-42", some ⟨"web", "sleep 100", "/", none, none⟩⟩
    (List.mem_singleton.mpr rfl) "web" 42 ⟨"web", "sleep 100", "/", none, none⟩
    rfl rfl).1 ⟨0, Nat.zero_lt_one, rfl⟩

/-! ## Claim C7: malformed records -/

theorem statusLoop_malformed_err (alive : Int → Bool) :
    ∀ store set, (∃ e ∈ store, e.content = none ∨
        ∃ err0, parse_state_filename e.filename = .error err0) →
      ∃ err, statusLoop alive store set = .error err := by
  intro store
  induction store with
  | nil =>
    intro set h
    obtain ⟨e, he, _⟩ := h
    exact absurd he (List.not_mem_nil e)
  | cons e' rest ih =>
    intro set h
    cases hc : e'.content with
    | none =>
      exact ⟨_, statusLoop_cons_bad_content alive e' rest set hc⟩
    | some proj =>
      cases hp : parse_state_filename e'.filename with
      | error err =>
        exact ⟨err, statusLoop_cons_bad_name alive e' rest set proj err hc hp⟩
      | ok v =>
        obtain ⟨name, pid⟩ := v
        obtain ⟨e, he, hbad⟩ := h
        have hrest : ∃ e ∈ rest, e.content = none ∨
            ∃ err0, parse_state_filename e.filename = .error err0 := by
          rcases List.mem_cons.mp he with rfl | hmem
          · rcases hbad with hbad | ⟨err0, hbad⟩
            · rw [hc] at hbad; cases hbad
            · rw [hp] at hbad; cases hbad
          · exact ⟨e, hmem, hbad⟩
        cases ha : alive pid with
        | true =>
          obtain ⟨err, herr⟩ := ih (insertSet set (displayName proj)) hrest
          refine ⟨err, ?_⟩
          rw [statusLoop_cons_alive alive e' rest set proj name pid hc hp ha, herr]
          rfl
        | false =>
          obtain ⟨err, herr⟩ := ih set hrest
          exact ⟨err, by
            rw [statusLoop_cons_dead alive e' rest set proj name pid hc hp ha]
            exact herr⟩

theorem terminatePhase_malformed_err (term : Int → TermResult)
    (projects : List Project) :
    ∀ store, (∃ e ∈ store, ∃ err0,
        parse_state_filename e.filename = .error err0) →
      ∃ err, terminatePhase term projects store = .error err := by
  intro store
  induction store with
  | nil =>
    intro h
    obtain ⟨e, he, _⟩ := h
    exact absurd he (List.not_mem_nil e)
  | cons e' rest ih =>
    intro h
    cases hp : parse_state_filename e'.filename with
    | error err =>
      refine ⟨err, ?_⟩
      unfold terminatePhase
      rw [hp]
    | ok v =>
      obtain ⟨name, pid⟩ := v
      obtain ⟨e, he, err0, hbad⟩ := h
      have hrest : ∃ e ∈ rest, ∃ err0,
          parse_state_filename e.filename = .error err0 := by
        rcases List.mem_cons.mp he with rfl | hmem
        · rw [hp] at hbad; cases hbad
        · exact ⟨e, hmem, err0, hbad⟩
      obtain ⟨err, herr⟩ := ih hrest
      refine ⟨err, ?_⟩
      unfold terminatePhase
      rw [hp]
      by_cases hm : (List.any projects fun p => p.name = name) = true <;> simp [hm, herr]

theorem stopIter_parse_ok (logDir : String) (projects : List Project)
    (aliveNow : Int → Bool) :
    ∀ store logs, (∀ e ∈ store, ∃ v,
        parse_state_filename e.filename = .ok v) →
      ∃ r, stopIter logDir projects aliveNow store logs = .ok r := by
  intro store
  induction store with
  | nil => intro logs _; exact ⟨⟨[], logs, [], true⟩, rfl⟩
  | cons e' rest ih =>
    intro logs h
    obtain ⟨⟨name, pid⟩, hp⟩ := h e' (List.mem_cons_self e' rest)
    have hrest := fun e he => h e (List.mem_cons_of_mem e' he)
    cases hf : projects.find? (fun q => q.name = name) with
    | none =>
      obtain ⟨r, hr⟩ := ih logs hrest
      refine ⟨{ r with store := e' :: r.store }, ?_⟩
      rw [stopIter_cons_nomatch logDir projects aliveNow e' rest logs name pid hp hf, hr]
      rfl
    | some p =>
      cases ha : aliveNow pid with
      | true =>
        obtain ⟨r, hr⟩ := ih logs hrest
        refine ⟨{ r with
          store := e' :: r.store
          set := insertSet r.set (displayName p)
          finished := false }, ?_⟩
        rw [stopIter_cons_alive logDir projects aliveNow e' rest logs name pid p hp hf ha, hr]
        rfl
      | false =>
        obtain ⟨r, hr⟩ := ih (removeFile logs (logPath logDir p.name)) hrest
        refine ⟨r, ?_⟩
        rw [stopIter_cons_dead logDir projects aliveNow e' rest logs name pid p hp hf ha]
        exact hr

theorem stopLoop_parse_ok (logDir : String) (projects : List Project)
    (alive : Nat → Int → Bool) :
    ∀ fuel i store logs, (∀ e ∈ store, ∃ v,
        parse_state_filename e.filename = .ok v) →
      ∃ out, stopLoop logDir projects alive i fuel store logs = .ok out := by
  intro fuel
  induction fuel with
  | zero => intro i store logs _; exact ⟨(store, logs, none), rfl⟩
  | succ f ih =>
    intro i store logs h
    obtain ⟨r, hr⟩ := stopIter_parse_ok logDir projects (alive i) store logs h
    have hsub : ∀ e ∈ r.store, ∃ v, parse_state_filename e.filename = .ok v :=
      fun e he => h e (stopIter_store_subset logDir projects (alive i) store logs r hr e he)
    cases hfin : r.finished with
    | true =>
      exact ⟨(r.store, r.logs, none),
        stopLoop_succ_finished logDir projects alive i f store logs r hr hfin⟩
    | false =>
      cases f with
      | zero =>
        exact ⟨(r.store, r.logs, some r.set),
          stopLoop_one_timeout logDir projects alive i store logs r hr hfin⟩
      | succ f' =>
        obtain ⟨out, hout⟩ := ih (i + 1) r.store r.logs hsub
        refine ⟨out, ?_⟩
        rw [stopLoop_succ_continue logDir projects alive i f' store logs r hr hfin]
        exact hout

/-- C7 (amended): in `status`, a record with content that does not
deserialize or a filename that does not parse surfaces as an error; in
`stop`, a record whose filename does not parse surfaces as an error, but
record content is never read, so a store whose filenames all parse makes
`stop` succeed even when contents are corrupt — corrupt content is not
surfaced by `stop`. -/
theorem c7_malformed_records_surfacing :
    (∀ (alive : Int → Bool) (store : List Entry) (e : Entry), e ∈ store →
      (e.content = none ∨ ∃ err0, parse_state_filename e.filename = .error err0) →
      ∃ err, status alive store = .error err) ∧
    (∀ (logDir : String) (term : Int → TermResult) (projects : List Project)
      (alive : Nat → Int → Bool) (fuel : Nat) (store : List Entry)
      (logs : List (String × String)) (e : Entry) (err0 : Err), e ∈ store →
      parse_state_filename e.filename = .error err0 →
      ∃ err, stop logDir term projects alive fuel store logs = .error err) ∧
    (∀ (logDir : String) (term : Int → TermResult) (projects : List Project)
      (alive : Nat → Int → Bool) (fuel : Nat) (store : List Entry)
      (logs : List (String × String)),
      (∀ e ∈ store, ∃ v, parse_state_filename e.filename = .ok v) →
      ∃ out, stop logDir term projects alive fuel store logs = .ok out) := by
  refine ⟨?_, ?_, ?_⟩
  · intro alive store e he hbad
    exact statusLoop_malformed_err alive store [] ⟨e, he, hbad⟩
  · intro logDir term projects alive fuel store logs e err0 he hbad
    obtain ⟨err, herr⟩ := terminatePhase_malformed_err term projects store ⟨e, he, err0, hbad⟩
    refine ⟨err, ?_⟩
    unfold stop
    rw [herr]
  · intro logDir term projects alive fuel store logs h
    obtain ⟨out, hout⟩ := stopLoop_parse_ok logDir projects alive fuel 0 store logs h
    refine ⟨out, ?_⟩
    unfold stop
    rw [terminatePhase_ok term projects store
      (fun e he => by obtain ⟨⟨n, pd⟩, hv⟩ := h e he; exact ⟨n, pd, hv⟩)]
    exact hout

/-- C7 counterexample: the record `a-5` whose content does not deserialize
is silently tolerated by `stop` — `stop` returns success with the record
still in place — even though the very same store makes `status` fail; so
not every malformed record is surfaced when listing in `stop`. -/
theorem c7_stop_ignores_corrupt_content :
    stop "log" (fun _ => TermResult.ok) [] (fun _ _ => true) 1
        [⟨"a-5", none⟩] [] = .ok ([⟨"a-5", none⟩], [], none) ∧
      status (fun _ => true) [⟨"a-5", none⟩] =
        .error (.corruptState "content does not deserialize") :=
  ⟨rfl, rfl⟩

/-- C7 witness: the amended theorem applied at concrete stores: corrupt
content surfaces in `status`; an unparsable filename surfaces in `stop`;
and a store of parseable filenames (with corrupt content) makes `stop`
succeed. -/
theorem c7_malformed_records_surfacing_witness :
    (∃ err, status (fun _ => true) [⟨"a-5", none⟩] = .error err) ∧
      (∃ err, stop "log" (fun _ => TermResult.ok) [] (fun _ _ => true) 1
        [⟨"nodash", some ⟨"web", "sleep 100", "/", none, none⟩⟩] [] = .error err) ∧
      ∃ out, stop "log" (fun _ => TermResult.ok) [] (fun _ _ => true) 1
        [⟨"a-5", none⟩] [] = .ok out :=
  ⟨c7_malformed_records_surfacing.1 (fun _ => true) [⟨"a-5", none⟩] ⟨"a-5", none⟩
      (List.mem_singleton.mpr rfl) (Or.inl rfl),
    c7_malformed_records_surfacing.2.1 "log" (fun _ => TermResult.ok) []
      (fun _ _ => true) 1 [⟨"nodash", some ⟨"web", "sleep 100", "/", none, none⟩⟩] []
      ⟨"nodash", some ⟨"web", "sleep 100", "/", none, none⟩⟩
      (.corruptState "File does not contain -") (List.mem_singleton.mpr rfl) rfl,
    c7_malformed_records_surfacing.2.2 "log" (fun _ => TermResult.ok) []
      (fun _ _ => true) 1 [⟨"a-5", none⟩] []
      (fun e he => ⟨("a", 5), by rw [List.mem_singleton.mp he]; rfl⟩)⟩

/-! ## Claims C5, C6, C10, C8: the `start` loop and the detached child -/

theorem startLoopProc_nil_ps (logDir : String) (m me : Int)
    (execOk : String → List String → Bool) (pids : List Int)
    (store : List Entry) (logs : List (String × String)) :
    startLoopProc logDir m me execOk pids [] store logs = ⟨store, logs, []⟩ := by
  cases pids <;> rfl

theorem startLoopProc_cons (logDir : String) (m me : Int)
    (execOk : String → List String → Bool) (pid : Int) (pids : List Int)
    (p : Project) (ps : List Project) (store : List Entry)
    (logs : List (String × String)) :
    startLoopProc logDir m me execOk (pid :: pids) (p :: ps) store logs =
      if me = m then
        let rest := startLoopProc logDir m me execOk pids ps
          (store ++ [⟨stateFilename p.name pid, some p⟩])
          (childRun logDir execOk logs p).logsAfter
        ⟨rest.store, rest.logs, (pid, p, (childRun logDir execOk logs p).fate) :: rest.children⟩
      else
        ⟨store ++ [⟨stateFilename p.name pid, some p⟩],
          (childRun logDir execOk logs p).logsAfter,
          [(pid, p, (childRun logDir execOk logs p).fate)]⟩ := rfl

theorem startLoopProc_store_prefix (logDir : String) (m me : Int)
    (execOk : String → List String → Bool) :
    ∀ ps pids store logs, ∃ t,
      (startLoopProc logDir m me execOk pids ps store logs).store = store ++ t := by
  intro ps
  induction ps with
  | nil =>
    intro pids store logs
    exact ⟨[], by rw [startLoopProc_nil_ps]; simp⟩
  | cons p ps ih =>
    intro pids store logs
    cases pids with
    | nil => exact ⟨[], by simp [startLoopProc]⟩
    | cons pid pids =>
      rw [startLoopProc_cons]
      by_cases hme : me = m
      · rw [if_pos hme]
        obtain ⟨t, ht⟩ := ih pids (store ++ [⟨stateFilename p.name pid, some p⟩])
          (childRun logDir execOk logs p).logsAfter
        exact ⟨⟨stateFilename p.name pid, some p⟩ :: t, by simp [ht]⟩
      · rw [if_neg hme]
        exact ⟨[⟨stateFilename p.name pid, some p⟩], rfl⟩

/-- C5 (amended): a command string that fails to tokenize is detected only
in the detached child, after the fork: the original process has already
forked a child for the job (so a detached child exists, whose fate is the
`InvalidCommand` error surfaced by `?` inside the child) and writes the
job's state record unconditionally; start then continues with the
remaining jobs rather than aborting the launch. -/
theorem c5_invalid_command_detected_in_child (logDir : String) (master : Int)
    (execOk : String → List String → Bool) (pid : Int) (pids : List Int)
    (p : Project) (ps : List Project) (store : List Entry)
    (logs : List (String × String)) (hbad : shlexSplit p.command = none) :
    (⟨stateFilename p.name pid, some p⟩ : Entry) ∈
        (startRun logDir master execOk (pid :: pids) (p :: ps) store logs).store ∧
      (startRun logDir master execOk (pid :: pids) (p :: ps) store logs).children.head? =
        some (pid, p, ChildFate.invalidCommand) := by
  unfold startRun
  rw [startLoopProc_cons, if_pos rfl]
  constructor
  · obtain ⟨t, ht⟩ := startLoopProc_store_prefix logDir master master execOk ps pids
      (store ++ [⟨stateFilename p.name pid, some p⟩])
      (childRun logDir execOk logs p).logsAfter
    show (⟨stateFilename p.name pid, some p⟩ : Entry) ∈
      (startLoopProc logDir master master execOk pids ps
        (store ++ [⟨stateFilename p.name pid, some p⟩])
        (childRun logDir execOk logs p).logsAfter).store
    rw [ht]
    simp
  · show ((pid, p, (childRun logDir execOk logs p).fate) :: _).head? = _
    simp [childRun, childFate, hbad]

/-- C5 counterexample: for the job `bad` whose command is a lone single
quote (untokenizable), `start` forks a detached child (which fails with
`InvalidCommand`), creates the log file, and writes the state record
`bad-7` — contradicting "the launch is aborted before any process is
spawned (no detached child exists and no state record is written)". -/
theorem c5_record_written_despite_invalid_command :
    startRun "log" 1 (fun _ _ => true) [7]
        [⟨"bad", String.mk [squote], "/", none, none⟩] [] [] =
      ⟨[⟨"bad-7", some ⟨"bad", String.mk [squote], "/", none, none⟩⟩],
        [("log/bad", "")],
        [(7, ⟨"bad", String.mk [squote], "/", none, none⟩,
          ChildFate.invalidCommand)]⟩ := rfl

/-- C5 witness: the amended theorem at the same untokenizable command. -/
theorem c5_invalid_command_detected_in_child_witness :
    (⟨stateFilename "bad" 7, some ⟨"bad", String.mk [squote], "/", none, none⟩⟩ : Entry) ∈
        (startRun "log" 1 (fun _ _ => true) [7]
          [⟨"bad", String.mk [squote], "/", none, none⟩] [] []).store ∧
      (startRun "log" 1 (fun _ _ => true) [7]
        [⟨"bad", String.mk [squote], "/", none, none⟩] [] []).children.head? =
          some (7, ⟨"bad", String.mk [squote], "/", none, none⟩,
            ChildFate.invalidCommand) :=
  c5_invalid_command_detected_in_child "log" 1 (fun _ _ => true) 7 []
    ⟨"bad", String.mk [squote], "/", none, none⟩ [] [] [] rfl

/-- C6: a process that results from detachment never re-enters the launch
loop: whatever the child's fate — `exec` succeeded, tokenization failed,
the token list was empty, or the `exec` returned so that control reached
the loop guard of main.rs:192-195 — a child whose pid differs from
`master_pid` launches no further job and writes no further state record. -/
theorem c6_detached_child_never_relaunches (logDir : String)
    (masterPid childPid : Int) (execOk : String → List String → Bool)
    (pids : List Int) (p : Project) (remaining : List Project)
    (store : List Entry) (logs : List (String × String))
    (hne : childPid ≠ masterPid) :
    (childExec logDir masterPid childPid execOk pids p remaining store logs).children = [] ∧
      (childExec logDir masterPid childPid execOk pids p remaining store logs).store = store := by
  unfold childExec childRun
  cases hf : childFate execOk p <;> simp [hf, hne]

/-- C6 witness: a child with pid 2 forked by master pid 1 launches
nothing further. -/
theorem c6_detached_child_never_relaunches_witness :
    (childExec "log" 1 2 (fun _ _ => false) [3]
        ⟨"web", "sleep 100", "/", none, none⟩
        [⟨"db", "postgres", "/", none, none⟩] [] []).children = [] ∧
      (childExec "log" 1 2 (fun _ _ => false) [3]
        ⟨"web", "sleep 100", "/", none, none⟩
        [⟨"db", "postgres", "/", none, none⟩] [] []).store = [] :=
  c6_detached_child_never_relaunches "log" 1 2 (fun _ _ => false) [3]
    ⟨"web", "sleep 100", "/", none, none⟩
    [⟨"db", "postgres", "/", none, none⟩] [] [] (by decide)

/-- C10: in the detached child, `&parts[0]` is indexed unconditionally:
whenever the command tokenizes to the empty list the child panics (it does
not produce an `InvalidCommand` error); whenever tokenization yields a
non-empty list, the indexing is safe and no panic occurs. -/
theorem c10_empty_token_list_panics (execOk : String → List String → Bool)
    (p : Project) :
    (shlexSplit p.command = some [] → childFate execOk p = .panicked) ∧
      (∀ t ts, shlexSplit p.command = some (t :: ts) →
        childFate execOk p ≠ .panicked) := by
  constructor
  · intro h
    unfold childFate
    rw [h]
  · intro t ts h hcontra
    unfold childFate at hcontra
    rw [h] at hcontra
    by_cases he : execOk t ts = true <;> simp [he] at hcontra

/-- C10 witness: the empty command tokenizes to the empty list and the
child panics on it. -/
theorem c10_empty_token_list_panics_witness :
    childFate (fun _ _ => true) ⟨"web", "", "/", none, none⟩ = .panicked :=
  (c10_empty_token_list_panics (fun _ _ => true)
    ⟨"web", "", "/", none, none⟩).1 rfl

/-- C8: the log file of a job is at `logPath logDir name`, derived from
the job name alone — `childRun`, which creates it, takes no pid at all —
and launching creates/truncates it: after a launch its content is empty
whatever it contained before, so restarting a job overwrites its previous
log file; no other file of the log directory is touched; and the log
directory produced by `start` for a job is identical whatever pid the
fork returns. -/
theorem c8_log_path_from_name_only (logDir : String)
    (execOk : String → List String → Bool) (logs : List (String × String))
    (p : Project) :
    getFile ((childRun logDir execOk logs p).logsAfter) (logPath logDir p.name) = some "" ∧
      (∀ q, q ≠ logPath logDir p.name →
        getFile ((childRun logDir execOk logs p).logsAfter) q = getFile logs q) ∧
      ∀ (m pid pid' : Int) (store : List Entry),
        (startRun logDir m execOk [pid] [p] store logs).logs =
          (startRun logDir m execOk [pid'] [p] store logs).logs := by
  refine ⟨getFile_setFile_self logs (logPath logDir p.name) "", ?_, ?_⟩
  · intro q hq
    exact getFile_setFile_other logs (logPath logDir p.name) "" q hq
  · intro m pid pid' store
    unfold startRun
    rw [startLoopProc_cons, startLoopProc_cons, if_pos rfl, if_pos rfl]
    rfl

/-- C8 witness: launching `web` truncates `log/web` (which held old
output) to empty and leaves `log/db` alone. -/
theorem c8_log_path_from_name_only_witness :
    getFile ((childRun "log" (fun _ _ => true)
        [("log/web", "old"), ("log/db", "keep")]
        ⟨"web", "sleep 100", "/", none, none⟩).logsAfter) (logPath "log" "web") = some "" ∧
      getFile ((childRun "log" (fun _ _ => true)
        [("log/web", "old"), ("log/db", "keep")]
        ⟨"web", "sleep 100", "/", none, none⟩).logsAfter) "log/db" =
          getFile [("log/web", "old"), ("log/db", "keep")] "log/db" :=
  ⟨(c8_log_path_from_name_only "log" (fun _ _ => true)
      [("log/web", "old"), ("log/db", "keep")] ⟨"web", "sleep 100", "/", none, none⟩).1,
    (c8_log_path_from_name_only "log" (fun _ _ => true)
      [("log/web", "old"), ("log/db", "keep")] ⟨"web", "sleep 100", "/", none, none⟩).2.1
      "log/db" (by decide)⟩

end Worker
